import Mathlib

/-!
Verification development for the `nubarium` date-parsing component
(`dates.go`).  Go strings are modelled as `List Char` (one `Char` per rune;
splitting on the ASCII byte '/' coincides with rune-level splitting for
valid UTF-8 input).  `strconv.Atoi` is modelled with its int64 range
error: a digit run whose value exceeds 9223372036854775807 yields that
clamp together with a failure flag, which the month logic branches on and
the day/year call sites discard.  A Go `time.Time` produced by this code
is either the zero value `time.Time{}` or
`time.Date(y, m, d, 0, 0, 0, 0, time.Local)`; a constructed time is
modelled by the components handed to `time.Date` folded into Go's
absolute-day arithmetic, carried out over unbounded `Int`.  That
arithmetic agrees with Go (and two day counts are equal exactly when the
Go values are) whenever Go's internal uint64 computation does not wrap,
which holds for every year below about 10^15; theorems compare day
counts only in that regime, and at clamped (int64-sized) components they
compare only the components themselves.
-/

namespace Nubarium

/-- A Go `time.Time` as observable from this package: the zero value
`time.Time{}` (whose location pointer is nil, hence never equal to a value
built by `time.Date(..., time.Local)`), or a local-midnight instant
identified by its absolute day count. -/
inductive GoTime where
  | zeroTime : GoTime
  | localMidnight (absDays : Int) : GoTime
deriving DecidableEq

/-- The only error value in `dates.go`: `ErrDateEmpty`. -/
inductive GoErr where
  | dateEmpty : GoErr
deriving DecidableEq

/-- `strings.Split(s, "/")`: the result always has `count '/' + 1`
segments and is never empty. -/
def splitOnSlash : List Char → List (List Char)
  | [] => [[]]
  | c :: cs =>
    if c = '/' then [] :: splitOnSlash cs
    else
      match splitOnSlash cs with
      | [] => [[c]]
      | p :: ps => (c :: p) :: ps

/-- `removeNonDigits` from `dates.go`: keep exactly the runes in
`'0'..'9'` (Go: `r >= '0' && r <= '9'`), in order. -/
def removeNonDigits (s : List Char) : List Char :=
  s.filter Char.isDigit

/-- Decimal value of a digit run, most significant first. -/
def digitsVal (s : List Char) : Nat :=
  s.foldl (fun n c => 10 * n + (c.toNat - 48)) 0

/-- The largest Go `int64` value, `strconv.ParseInt`'s clamp on range
error. -/
def maxInt64 : Nat := 9223372036854775807

/-- `strconv.Atoi` restricted to the all-digit outputs of
`removeNonDigits`, as `(value, ok)`: `ok` is `false` on the empty string
(syntax error, value 0) and on digit runs exceeding int64 (range error,
value clamped to 9223372036854775807); the call sites that discard the
error still use the returned value. -/
def atoi (s : List Char) : Nat × Bool :=
  if s = [] then (0, false)
  else if digitsVal s ≤ maxInt64 then (digitsVal s, true)
  else (maxInt64, false)

/-- Lowercase an ASCII letter, as in Go's byte-wise case fold. -/
def toLowerAscii (c : Char) : Char :=
  if 'A' ≤ c ∧ c ≤ 'Z' then Char.ofNat (c.toNat + 32) else c

/-- Ordered scan of a name table, as Go's `lookup` in `time/format.go`
tries `shortMonthNames` in calendar order; `i` is the ordinal of the
first entry. -/
def monthScan : List (List Char) → Nat → List Char → Option Nat
  | [], _, _ => none
  | n :: ns, i, l => if l = n then some i else monthScan ns (i + 1) l

/-- The case-folded short month names `shortMonthNames` of the `time`
package, in calendar order. -/
def shortMonthNames : List (List Char) :=
  [[ 'j', 'a', 'n' ], [ 'f', 'e', 'b' ], [ 'm', 'a', 'r' ],
   [ 'a', 'p', 'r' ], [ 'm', 'a', 'y' ], [ 'j', 'u', 'n' ],
   [ 'j', 'u', 'l' ], [ 'a', 'u', 'g' ], [ 's', 'e', 'p' ],
   [ 'o', 'c', 't' ], [ 'n', 'o', 'v' ], [ 'd', 'e', 'c' ]]

/-- `time.Parse("Jan", s)`, reduced to the month it reports: Go's
`lookup`/`match` in `time/format.go` accept exactly a 3-letter short month
name, compared ASCII-case-insensitively, with no text left over. -/
def timeParseJan (s : List Char) : Option Nat :=
  monthScan shortMonthNames 1 (s.map toLowerAscii)

/-- `unicode.IsSpace`, the code points with the White_Space property. -/
def isGoSpace (c : Char) : Bool :=
  [9, 10, 11, 12, 13, 32, 0x85, 0xA0, 0x1680,
   0x2000, 0x2001, 0x2002, 0x2003, 0x2004, 0x2005, 0x2006, 0x2007,
   0x2008, 0x2009, 0x200A, 0x2028, 0x2029, 0x202F, 0x205F, 0x3000].contains c.toNat

/-- `strings.TrimSpace`: drop White_Space runes from both ends. -/
def trimSpace (s : List Char) : List Char :=
  ((s.dropWhile isGoSpace).reverse.dropWhile isGoSpace).reverse

/-- `strings.ToLower`, per rune.  ASCII letters are folded; U+0130 and
U+212A are the only non-ASCII runes whose Unicode lowercase is ASCII, so
with these two cases the model agrees with Go on equality against every
(all-ASCII) key of the Spanish month table. -/
def goToLower (c : Char) : Char :=
  if 'A' ≤ c ∧ c ≤ 'Z' then Char.ofNat (c.toNat + 32)
  else if c.toNat = 0x130 then 'i'
  else if c.toNat = 0x212A then 'k'
  else c

/-- The `spanishMonths` map literal from `dates.go`, as an association
list (all keys distinct, so lookup order is immaterial). -/
def spanishMonths : List (List Char × Nat) :=
  [("ene".data, 1), ("feb".data, 2), ("mar".data, 3), ("abr".data, 4),
   ("may".data, 5), ("jun".data, 6), ("jul".data, 7), ("ago".data, 8),
   ("sep".data, 9), ("oct".data, 10), ("nov".data, 11), ("dic".data, 12),
   ("enero".data, 1), ("febrero".data, 2), ("marzo".data, 3),
   ("abril".data, 4), ("mayo".data, 5), ("junio".data, 6),
   ("julio".data, 7), ("agosto".data, 8), ("septiembre".data, 9),
   ("octubre".data, 10), ("noviembre".data, 11), ("diciembre".data, 12)]

/-- Go map indexing `spanishMonths[k]` with the zero value
`time.Month(0)` for an absent key. -/
def spanishMonthLookup (s : List Char) : Nat :=
  (spanishMonths.lookup s).getD 0

/-! ### The `time.Date` day arithmetic (`time` package internals) -/

/-- Go `time.norm`: carry `lo` into `hi` so that `0 ≤ lo < base`.
Go's `/` is truncated division (`Int.tdiv`); both dividends are
nonnegative at every call site here. -/
def norm (hi lo base : Int) : Int × Int :=
  let p := if lo < 0 then
    let n := (-lo - 1).tdiv base + 1
    (hi - n, lo + n * base)
  else (hi, lo)
  if base ≤ p.2 then
    let n := p.2.tdiv base
    (p.1 + n, p.2 - n * base)
  else p

def absoluteZeroYear : Int := -292277022399

def daysPer400Years : Int := 365 * 400 + 97

def daysPer100Years : Int := 365 * 100 + 24

def daysPer4Years : Int := 365 * 4 + 1

/-- Go `time.daysSinceEpoch`: days from the absolute zero year to
January 1 of `year` (uint64 arithmetic in Go; exact here since all years
reached by this code keep the count far from wrap-around). -/
def daysSinceEpoch (year : Int) : Int :=
  let y := year - absoluteZeroYear
  let n400 := y.tdiv 400
  let y1 := y - 400 * n400
  let n100 := y1.tdiv 100
  let y2 := y1 - 100 * n100
  let n4 := y2.tdiv 4
  let y3 := y2 - 4 * n4
  daysPer400Years * n400 + daysPer100Years * n100 + daysPer4Years * n4 + 365 * y3

/-- Go `time.isLeap`. -/
def isLeap (year : Int) : Bool :=
  year.tmod 4 = 0 ∧ (year.tmod 100 ≠ 0 ∨ year.tmod 400 = 0)

/-- Go `time.daysBefore[m]`: days in a non-leap year before month `m+1`. -/
def daysBefore : List Int :=
  [0, 31, 59, 90, 120, 151, 181, 212, 243, 273, 304, 334]

/-- The absolute day count of
`time.Date(year, Month(month), day, 0, 0, 0, 0, loc)`: normalize the
month into the year, then add the days before the month (with the leap
day when applicable) and `day - 1`.  `day` is added unnormalized, which
is what produces the calendar rollover behaviour. -/
def dateToDays (year month day : Int) : Int :=
  let ym := norm year (month - 1) 12
  let month1 := ym.2 + 1
  let d := daysSinceEpoch ym.1
  let d1 := d + daysBefore.getD (month1 - 1).toNat 0
  let d2 := if isLeap ym.1 ∧ 3 ≤ month1 then d1 + 1 else d1
  d2 + (day - 1)

/-! ### The parser (`dates.go`) -/

/-- `DateParser` from `dates.go`; the pointer field is an `Option`. -/
structure DateParser where
  expiryReferenceDate : Option GoTime := none

/-- A functional option, as in `dates.go`. -/
def GoOption := DateParser → DateParser

/-- `WithExpiryReferenceDate` from `dates.go`. -/
def WithExpiryReferenceDate (date : GoTime) : GoOption :=
  fun p => { p with expiryReferenceDate := some date }

/-- `NewDateParser` from `dates.go`: start from the zero struct and apply
each option in order. -/
def NewDateParser (options : List GoOption) : DateParser :=
  options.foldl (fun p o => o p) {}

/-- `(*DateParser).Parse` from `dates.go`, line for line.  The result is
`none` when Go would panic with an index-out-of-range on `parts[1]` or
`parts[2]`; otherwise it is the `(time.Time, error)` pair Go returns. -/
def DateParser.Parse (_p : DateParser) (dateStr : List Char) :
    Option (GoTime × Option GoErr) :=
  if dateStr = [] ∨ dateStr = [ '/', '/' ] then
    some (GoTime.zeroTime, some GoErr.dateEmpty)
  else
    match splitOnSlash dateStr with
    | dayStr :: monthStr :: yearStr :: _ =>
      let day : Nat := (atoi (removeNonDigits dayStr)).1
      let month : Nat :=
        match atoi (removeNonDigits monthStr) with
        | (m, true) => m
        | (_, false) =>
          match timeParseJan monthStr with
          | some m => m
          | none => spanishMonthLookup ((trimSpace monthStr).map goToLower)
      let year0 : Nat := (atoi (removeNonDigits yearStr)).1
      let year : Nat := if year0 < 100 then year0 + 2000 else year0
      some (GoTime.localMidnight (dateToDays year month day), none)
    | _ => none

/-- The day (and raw year) component: digit-stripped segment, parsed with
the error discarded, so 0 on no digits and the int64 clamp on overflow. -/
def numComp (s : List Char) : Nat :=
  (atoi (removeNonDigits s)).1

/-- The month component: numeric when `Atoi` succeeds on the digit run,
else (empty run or range error) the English short-name parse, else the
Spanish table lookup. -/
def monthComp (s : List Char) : Nat :=
  match atoi (removeNonDigits s) with
  | (m, true) => m
  | (_, false) =>
    match timeParseJan s with
    | some m => m
    | none => spanishMonthLookup ((trimSpace s).map goToLower)

/-- The year component after the 2-digit rule. -/
def yearComp (s : List Char) : Nat :=
  if numComp s < 100 then numComp s + 2000 else numComp s

/-- Number of '/' characters in a string. -/
def slashCount : List Char → Nat
  | [] => 0
  | c :: cs => (if c = '/' then 1 else 0) + slashCount cs

/-- A parser built with no options, for concrete instances. -/
def p0 : DateParser := NewDateParser []

/-! ### Helper lemmas -/

theorem splitOnSlash_cons (c : Char) (cs : List Char) :
    splitOnSlash (c :: cs) =
      if c = '/' then [] :: splitOnSlash cs
      else
        match splitOnSlash cs with
        | [] => [[c]]
        | p :: ps => (c :: p) :: ps := rfl

theorem splitOnSlash_ne_nil (s : List Char) : splitOnSlash s ≠ [] := by
  cases s with
  | nil => simp [splitOnSlash]
  | cons c cs =>
    rw [splitOnSlash_cons]
    by_cases hc : c = '/'
    · simp [hc]
    · simp only [if_neg hc]
      cases h : splitOnSlash cs with
      | nil => simp
      | cons p ps => simp

theorem splitOnSlash_cons_slash (cs : List Char) :
    splitOnSlash ( '/' :: cs) = [] :: splitOnSlash cs := by
  rw [splitOnSlash_cons, if_pos rfl]

theorem splitOnSlash_cons_ne (c : Char) (cs : List Char) (p : List Char)
    (ps : List (List Char)) (hc : ¬ c = '/') (h : splitOnSlash cs = p :: ps) :
    splitOnSlash (c :: cs) = (c :: p) :: ps := by
  rw [splitOnSlash_cons, if_neg hc, h]

theorem length_splitOnSlash (s : List Char) :
    (splitOnSlash s).length = slashCount s + 1 := by
  induction s with
  | nil => rfl
  | cons c cs ih =>
    by_cases hc : c = '/'
    · subst hc
      rw [splitOnSlash_cons_slash]
      simp [slashCount, ih]
      omega
    · cases h : splitOnSlash cs with
      | nil => exact absurd h (splitOnSlash_ne_nil cs)
      | cons p ps =>
        rw [splitOnSlash_cons_ne c cs p ps hc h]
        rw [h] at ih
        simp [slashCount, hc] at ih ⊢
        omega

theorem splitOnSlash_append (s t : List Char) :
    splitOnSlash (s ++ '/' :: t) = splitOnSlash s ++ splitOnSlash t := by
  induction s with
  | nil => simp [splitOnSlash, splitOnSlash_cons_slash]
  | cons c cs ih =>
    by_cases hc : c = '/'
    · subst hc
      rw [List.cons_append, splitOnSlash_cons_slash, splitOnSlash_cons_slash, ih]
      rfl
    · cases h : splitOnSlash cs with
      | nil => exact absurd h (splitOnSlash_ne_nil cs)
      | cons p ps =>
        rw [List.cons_append,
          splitOnSlash_cons_ne c (cs ++ '/' :: t) p (ps ++ splitOnSlash t) hc
            (by rw [ih, h]; rfl),
          splitOnSlash_cons_ne c cs p ps hc h]
        rfl

theorem splitOnSlash_three (s : List Char) (h : 2 ≤ slashCount s) :
    ∃ d m y rest, splitOnSlash s = d :: m :: y :: rest := by
  have hl := length_splitOnSlash s
  cases l1 : splitOnSlash s with
  | nil => exact absurd l1 (splitOnSlash_ne_nil s)
  | cons a t =>
    cases t with
    | nil => rw [l1] at hl; simp at hl; omega
    | cons b t2 =>
      cases t2 with
      | nil => rw [l1] at hl; simp at hl; omega
      | cons c t3 => exact ⟨a, b, c, t3, rfl⟩

/-- Unfolding `Parse` on a three-or-more-segment split into its
day/month/year components. -/
theorem Parse_three (p : DateParser) (s d m y : List Char)
    (rest : List (List Char)) (hsplit : splitOnSlash s = d :: m :: y :: rest)
    (h1 : s ≠ []) (h2 : s ≠ [ '/', '/' ]) :
    p.Parse s = some (GoTime.localMidnight
      (dateToDays (yearComp y) (monthComp m) (numComp d)), none) := by
  unfold DateParser.Parse
  rw [if_neg (not_or.mpr ⟨h1, h2⟩), hsplit]
  rfl

theorem numComp_all_digits (s : List Char) (hne : s ≠ [])
    (hdig : ∀ c ∈ s, c.isDigit) (hfit : digitsVal s ≤ maxInt64) :
    numComp s = digitsVal s := by
  have hf : removeNonDigits s = s := List.filter_eq_self.mpr hdig
  simp [numComp, atoi, hf, hne, hfit]

theorem monthComp_all_digits (s : List Char) (hne : s ≠ [])
    (hdig : ∀ c ∈ s, c.isDigit) (hfit : digitsVal s ≤ maxInt64) :
    monthComp s = digitsVal s := by
  have hf : removeNonDigits s = s := List.filter_eq_self.mpr hdig
  simp [monthComp, atoi, hf, hne, hfit]

theorem ne_nil_of_split_three (s d m y : List Char) (rest : List (List Char))
    (hsplit : splitOnSlash s = d :: m :: y :: rest) : s ≠ [] := by
  intro h
  rw [h] at hsplit
  simp [splitOnSlash] at hsplit

theorem numComp_min (s : List Char) :
    numComp s = min (digitsVal (removeNonDigits s)) maxInt64 := by
  by_cases h : removeNonDigits s = []
  · simp [numComp, atoi, h, digitsVal]
  · by_cases h2 : digitsVal (removeNonDigits s) ≤ maxInt64
    · simp [numComp, atoi, h, h2, Nat.min_eq_left h2]
    · simp [numComp, atoi, h, h2, Nat.min_eq_right (Nat.le_of_not_le h2)]

theorem monthComp_num (m : List Char) (hne : removeNonDigits m ≠ [])
    (hfit : digitsVal (removeNonDigits m) ≤ maxInt64) :
    monthComp m = digitsVal (removeNonDigits m) := by
  simp [monthComp, atoi, hne, hfit]

theorem monthComp_eng (m : List Char) (v : Nat)
    (hm : removeNonDigits m = [] ∨ maxInt64 < digitsVal (removeNonDigits m))
    (hj : timeParseJan m = some v) : monthComp m = v := by
  rcases hm with hm | hm
  · simp [monthComp, atoi, hm, hj]
  · have hne : removeNonDigits m ≠ [] := by
      intro h
      rw [h] at hm
      exact absurd hm (by decide)
    simp [monthComp, atoi, hne, Nat.not_le.mpr hm, hj]

theorem monthComp_spa (m : List Char)
    (hm : removeNonDigits m = [] ∨ maxInt64 < digitsVal (removeNonDigits m))
    (hj : timeParseJan m = none) :
    monthComp m = spanishMonthLookup ((trimSpace m).map goToLower) := by
  rcases hm with hm | hm
  · simp [monthComp, atoi, hm, hj]
  · have hne : removeNonDigits m ≠ [] := by
      intro h
      rw [h] at hm
      exact absurd hm (by decide)
    simp [monthComp, atoi, hne, Nat.not_le.mpr hm, hj]

theorem slashCount_append (s t : List Char) :
    slashCount (s ++ t) = slashCount s + slashCount t := by
  induction s with
  | nil => simp [slashCount]
  | cons c cs ih => simp [slashCount, ih]; omega

/-! ### Claims -/

/-- C1 counterexample: `1/9999999999999999999/2000` splits into three
all-digit segments, but the 19-digit month run exceeds int64, so
`strconv.Atoi` reports a range error and the code takes the name
fallback: the month supplied to the constructor is 0 (December 1999),
not the segment's integer value 9999999999999999999 as the claim
states. -/
theorem claim_C1_counterexample :
    p0.Parse "1/9999999999999999999/2000".data
        = some (GoTime.localMidnight
            (dateToDays 2000 (monthComp "9999999999999999999".data) 1), none) ∧
    splitOnSlash "1/9999999999999999999/2000".data
        = ["1".data, "9999999999999999999".data, "2000".data] ∧
    (∀ c ∈ "9999999999999999999".data, c.isDigit) ∧
    "9999999999999999999".data ≠ [] ∧
    monthComp "9999999999999999999".data = 0 ∧
    digitsVal "9999999999999999999".data = 9999999999999999999 ∧
    (0 : Nat) ≠ 9999999999999999999 := by
  exact ⟨rfl, rfl, by decide, by decide, rfl, rfl, by decide⟩

/-- C1 amended: for every input splitting on '/' into exactly three
segments, each one or more ASCII digits with integer value at most
9223372036854775807 (within int64), `Parse` returns the local-midnight
calendar date built from day = value of segment 1, month = value of
segment 2, and year = value of segment 3 normalized by the 2-digit rule,
with nil error. -/
theorem claim_C1_amended (p : DateParser) (s d m y : List Char)
    (hsplit : splitOnSlash s = [d, m, y])
    (hd : d ≠ []) (hm : m ≠ []) (hy : y ≠ [])
    (hd2 : ∀ c ∈ d, c.isDigit) (hm2 : ∀ c ∈ m, c.isDigit)
    (hy2 : ∀ c ∈ y, c.isDigit)
    (hdf : digitsVal d ≤ maxInt64) (hmf : digitsVal m ≤ maxInt64)
    (hyf : digitsVal y ≤ maxInt64) :
    p.Parse s = some (GoTime.localMidnight
      (dateToDays
        (((if digitsVal y < 100 then digitsVal y + 2000 else digitsVal y) : Nat) : Int)
        (digitsVal m) (digitsVal d)), none) := by
  have h1 : s ≠ [] := ne_nil_of_split_three s d m y [] hsplit
  have h2 : s ≠ [ '/', '/' ] := by
    intro h
    rw [h] at hsplit
    have hss : splitOnSlash [ '/', '/' ] = [[], [], []] := rfl
    rw [hss] at hsplit
    injection hsplit with ha _
    exact hd ha.symm
  rw [Parse_three p s d m y [] hsplit h1 h2,
    numComp_all_digits d hd hd2 hdf, monthComp_all_digits m hm hm2 hmf]
  have hyc : yearComp y =
      if digitsVal y < 100 then digitsVal y + 2000 else digitsVal y := by
    simp [yearComp, numComp_all_digits y hy hy2 hyf]
  rw [hyc]

/-- C1 witness: the all-numeric fixture `13/04/2025`. -/
theorem claim_C1_witness :
    p0.Parse "13/04/2025".data
      = some (GoTime.localMidnight (dateToDays 2025 4 13), none) := by
  have h := claim_C1_amended p0 "13/04/2025".data "13".data "04".data
    "2025".data (by decide) (by decide) (by decide) (by decide) (by decide)
    (by decide) (by decide) (by decide) (by decide) (by decide)
  exact h

/-- C4 counterexample: for the 20-digit year run in
`1/1/99999999999999999999` the claim says the parsed integer
99999999999999999999 (at least 100) is used unchanged, but `strconv.Atoi`
clamps it to 9223372036854775807 with an ignored range error, and that
clamp is the year `Parse` hands to the constructor. -/
theorem claim_C4_counterexample :
    p0.Parse "1/1/99999999999999999999".data
        = some (GoTime.localMidnight
            (dateToDays (yearComp "99999999999999999999".data) 1 1), none) ∧
    splitOnSlash "1/1/99999999999999999999".data
        = ["1".data, "1".data, "99999999999999999999".data] ∧
    digitsVal (removeNonDigits "99999999999999999999".data)
        = 99999999999999999999 ∧
    yearComp "99999999999999999999".data = 9223372036854775807 ∧
    (9223372036854775807 : Nat) ≠ 99999999999999999999 := by
  exact ⟨rfl, rfl, rfl, rfl, by decide⟩

/-- C4 amended: the year value `strconv.Atoi` returns for the
digit-stripped year segment — the exact digit-run value when it fits in
int64, 9223372036854775807 when the run overflows (the range error is
ignored), 0 when the run is empty — has 2000 added if below 100 and is
used unchanged if 100 or greater; in particular `01/01/20` yields year
2020 and `24/05/.202` yields year 202. -/
theorem claim_C4_amended :
    (∀ (p : DateParser) (s d m y : List Char) (rest : List (List Char)),
        splitOnSlash s = d :: m :: y :: rest → s ≠ [] → s ≠ [ '/', '/' ] →
        p.Parse s = some (GoTime.localMidnight
          (dateToDays
            (((if numComp y < 100 then numComp y + 2000 else numComp y) : Nat) : Int)
            (monthComp m) (numComp d)), none)) ∧
    (∀ yseg : List Char,
        numComp yseg = min (digitsVal (removeNonDigits yseg)) maxInt64) ∧
    p0.Parse "01/01/20".data
      = some (GoTime.localMidnight (dateToDays 2020 1 1), none) ∧
    p0.Parse "24/05/.202".data
      = some (GoTime.localMidnight (dateToDays 202 5 24), none) := by
  refine ⟨?_, numComp_min, rfl, rfl⟩
  intro p s d m y rest hs h1 h2
  exact Parse_three p s d m y rest hs h1 h2

/-- C4 witness: the universal part applied at `08/06/25`. -/
theorem claim_C4_witness :
    p0.Parse "08/06/25".data
      = some (GoTime.localMidnight (dateToDays 2025 6 8), none) := by
  have h := claim_C4_amended.1 p0 "08/06/25".data "08".data "06".data
    "25".data [] (by decide) (by decide) (by decide)
  exact h

/-- C8: `Parse` never consults the stored reference date: a parser built
with no options and one built with `WithExpiryReferenceDate` agree on
every input. -/
theorem claim_C8 (d : GoTime) (s : List Char) :
    (NewDateParser []).Parse s
      = (NewDateParser [WithExpiryReferenceDate d]).Parse s := rfl

/-- C2: on the inputs for which `Parse` does not fault (empty, `"//"`, or
at least two slashes), the error is non-nil exactly for the empty string
and `"//"`; there it is `ErrDateEmpty` with the zero time, and everywhere
else in this class the error is nil. -/
theorem claim_C2 (p : DateParser) (s : List Char)
    (h : s = [] ∨ s = [ '/', '/' ] ∨ 2 ≤ slashCount s) :
    ∃ t e, p.Parse s = some (t, e) ∧
      (e ≠ none ↔ (s = [] ∨ s = [ '/', '/' ])) ∧
      ((s = [] ∨ s = [ '/', '/' ]) →
        t = GoTime.zeroTime ∧ e = some GoErr.dateEmpty) := by
  by_cases he : s = [] ∨ s = [ '/', '/' ]
  · refine ⟨GoTime.zeroTime, some GoErr.dateEmpty, ?_, ?_, fun _ => ⟨rfl, rfl⟩⟩
    · unfold DateParser.Parse
      rw [if_pos he]
    · simp [he]
  · have hcnt : 2 ≤ slashCount s := by
      rcases h with h | h | h
      · exact absurd (Or.inl h) he
      · exact absurd (Or.inr h) he
      · exact h
    obtain ⟨d, m, y, rest, hs⟩ := splitOnSlash_three s hcnt
    rw [not_or] at he
    exact ⟨_, none, Parse_three p s d m y rest hs he.1 he.2,
      by simp [he.1, he.2], fun hc => absurd hc (not_or.mpr he)⟩

/-- C2 witness: the theorem applied at `"//"`. -/
theorem claim_C2_witness :
    p0.Parse [ '/', '/' ] = some (GoTime.zeroTime, some GoErr.dateEmpty) := by
  obtain ⟨t, e, h1, _h2, h3⟩ := claim_C2 p0 [ '/', '/' ] (Or.inr (Or.inl rfl))
  obtain ⟨ht, he⟩ := h3 (Or.inr rfl)
  rw [ht, he] at h1
  exact h1

/-- C5 counterexample: for the 20-digit day run in
`99999999999999999999/1/2000` the claim says the day is the digit run's
integer value, but `strconv.Atoi` clamps it to 9223372036854775807 (the
range error is discarded), and that clamp is the day `Parse` hands to
the constructor. -/
theorem claim_C5_counterexample :
    p0.Parse "99999999999999999999/1/2000".data
        = some (GoTime.localMidnight
            (dateToDays 2000 1 (numComp "99999999999999999999".data)), none) ∧
    splitOnSlash "99999999999999999999/1/2000".data
        = ["99999999999999999999".data, "1".data, "2000".data] ∧
    removeNonDigits "99999999999999999999".data
        = "99999999999999999999".data ∧
    digitsVal "99999999999999999999".data = 99999999999999999999 ∧
    numComp "99999999999999999999".data = 9223372036854775807 ∧
    (9223372036854775807 : Nat) ≠ 99999999999999999999 := by
  exact ⟨rfl, rfl, rfl, rfl, rfl, by decide⟩

/-- C5 amended: on every three-segment input the day is the decimal
value of the digit characters of the day segment in order with
non-digits removed, clamped to 9223372036854775807 when the run
overflows int64 (`strconv.Atoi`'s range error is discarded), and
likewise the year before the 2-digit rule; these values default to 0
when the segment has no digits, and no error is returned. -/
theorem claim_C5_amended (p : DateParser) (s d m y : List Char)
    (rest : List (List Char)) (hs : splitOnSlash s = d :: m :: y :: rest)
    (h1 : s ≠ []) (h2 : s ≠ [ '/', '/' ]) :
    p.Parse s = some (GoTime.localMidnight
      (dateToDays (yearComp y) (monthComp m)
        (((min (digitsVal (removeNonDigits d)) maxInt64 : Nat) : Int))), none) ∧
    numComp y = min (digitsVal (removeNonDigits y)) maxInt64 ∧
    ((∀ c ∈ d, ¬ c.isDigit) → numComp d = 0) ∧
    ((∀ c ∈ y, ¬ c.isDigit) → numComp y = 0) := by
  refine ⟨?_, numComp_min y, ?_, ?_⟩
  · rw [Parse_three p s d m y rest hs h1 h2, numComp_min d]
  · intro hnone
    have h3 : removeNonDigits d = [] := List.filter_eq_nil_iff.mpr hnone
    rw [numComp_min d, h3]
    rfl
  · intro hnone
    have h3 : removeNonDigits y = [] := List.filter_eq_nil_iff.mpr hnone
    rw [numComp_min y, h3]
    rfl

/-- C5 witness: the noise-tolerant fixture `23/03/25AC`. -/
theorem claim_C5_witness :
    p0.Parse "23/03/25AC".data
      = some (GoTime.localMidnight (dateToDays 2025 3 23), none) := by
  have h := (claim_C5_amended p0 "23/03/25AC".data "23".data "03".data
    "25AC".data [] (by decide) (by decide) (by decide)).1
  exact h

/-- C9: the three indexed accesses after the split are in bounds for
every input that is empty, is `"//"`, or has at least two slashes
(`Parse` produces a value there); on every other input `Parse` hits an
out-of-bounds index (`none` in this model) instead of returning an
error. -/
theorem claim_C9 (p : DateParser) (s : List Char) :
    (2 ≤ slashCount s → 3 ≤ (splitOnSlash s).length) ∧
    ((s = [] ∨ s = [ '/', '/' ] ∨ 2 ≤ slashCount s) → (p.Parse s).isSome) ∧
    (s ≠ [] → s ≠ [ '/', '/' ] → slashCount s < 2 → p.Parse s = none) := by
  refine ⟨?_, ?_, ?_⟩
  · intro h
    rw [length_splitOnSlash]
    omega
  · intro h
    by_cases he : s = [] ∨ s = [ '/', '/' ]
    · unfold DateParser.Parse
      rw [if_pos he]
      rfl
    · have hcnt : 2 ≤ slashCount s := by
        rcases h with h | h | h
        · exact absurd (Or.inl h) he
        · exact absurd (Or.inr h) he
        · exact h
      obtain ⟨d, m, y, rest, hs⟩ := splitOnSlash_three s hcnt
      rw [not_or] at he
      rw [Parse_three p s d m y rest hs he.1 he.2]
      rfl
  · intro h1 h2 hlt
    unfold DateParser.Parse
    rw [if_neg (not_or.mpr ⟨h1, h2⟩)]
    have hl := length_splitOnSlash s
    cases l1 : splitOnSlash s with
    | nil => exact absurd l1 (splitOnSlash_ne_nil s)
    | cons a t =>
      cases t with
      | nil => rfl
      | cons b t2 =>
        cases t2 with
        | nil => rfl
        | cons c t3 =>
          rw [l1] at hl
          simp at hl
          omega

/-- C9 witness: `"1"` faults; `"7/8/9"` is in bounds. -/
theorem claim_C9_witness :
    p0.Parse [ '1' ] = none ∧ (p0.Parse "7/8/9".data).isSome := by
  constructor
  · exact (claim_C9 p0 [ '1' ]).2.2 (by decide) (by decide) (by decide)
  · exact (claim_C9 p0 "7/8/9".data).2.1 (Or.inr (Or.inr (by decide)))

/-- C10: appending `"/" ++ t` to an input that already has at least two
slashes (and is not `"//"`) does not change the result: only the first
three segments are used. -/
theorem claim_C10 (p : DateParser) (s t : List Char)
    (hcnt : 2 ≤ slashCount s) (hne : s ≠ [ '/', '/' ]) :
    p.Parse (s ++ '/' :: t) = p.Parse s := by
  obtain ⟨d, m, y, rest, hs⟩ := splitOnSlash_three s hcnt
  have hs1 : s ≠ [] := by
    intro h
    rw [h] at hcnt
    simp [slashCount] at hcnt
  have hst : splitOnSlash (s ++ '/' :: t)
      = d :: m :: y :: (rest ++ splitOnSlash t) := by
    rw [splitOnSlash_append, hs]
    rfl
  have h1 : s ++ '/' :: t ≠ [] := by simp
  have h2 : s ++ '/' :: t ≠ [ '/', '/' ] := by
    intro h
    have hc := congrArg slashCount h
    rw [slashCount_append] at hc
    simp [slashCount] at hc
    omega
  rw [Parse_three p (s ++ '/' :: t) d m y (rest ++ splitOnSlash t) hst h1 h2,
    Parse_three p s d m y rest hs hs1 hne]

/-- C10 witness: `5/6/7/8` parses the same as `5/6/7`. -/
theorem claim_C10_witness :
    p0.Parse "5/6/7/8".data = p0.Parse "5/6/7".data := by
  have h := claim_C10 p0 "5/6/7".data "8".data (by decide) (by decide)
  exact h

theorem norm_twelve (y : Int) : norm y 12 12 = (y + 1, 0) := by
  have h : ((12 : Int)).tdiv 12 = 1 := by decide
  norm_num [norm, h]

theorem norm_zero_twelve (y : Int) : norm y 0 12 = (y, 0) := by
  norm_num [norm]

/-- C7 counterexample: the month value extracted from the 19-digit run
in `2/9999999999999999999/2001` is not passed to the constructor:
`strconv.Atoi` errors on the over-int64 run, the name fallback misses,
and `Parse` supplies month 0 instead of 9999999999999999999, refuting
"Parse passes them to the date constructor" for such values. -/
theorem claim_C7_counterexample :
    p0.Parse "2/9999999999999999999/2001".data
        = some (GoTime.localMidnight
            (dateToDays 2001 (monthComp "9999999999999999999".data) 2), none) ∧
    splitOnSlash "2/9999999999999999999/2001".data
        = ["2".data, "9999999999999999999".data, "2001".data] ∧
    digitsVal (removeNonDigits "9999999999999999999".data)
        = 9999999999999999999 ∧
    monthComp "9999999999999999999".data = 0 ∧
    (0 : Nat) ≠ 9999999999999999999 := by
  exact ⟨rfl, rfl, rfl, rfl, by decide⟩

/-- C7 amended: the extracted month and day — the numeric month when its
digit run fits in int64 (an overflowing run makes `Atoi` error and the
month fall to the name lookups), and the day digit run clamped to
9223372036854775807 on overflow — are passed to the date constructor
without range checks under a nil error, and its rollover normalization
determines the result: month 13 is the same instant as January of the
next year, and day 0 of March 2025 is the last day of February 2025. -/
theorem claim_C7_amended :
    (∀ (p : DateParser) (s d m y : List Char) (rest : List (List Char)),
        splitOnSlash s = d :: m :: y :: rest → s ≠ [] → s ≠ [ '/', '/' ] →
        p.Parse s = some (GoTime.localMidnight
          (dateToDays (yearComp y) (monthComp m) (numComp d)), none)) ∧
    (∀ m : List Char, removeNonDigits m ≠ [] →
        digitsVal (removeNonDigits m) ≤ maxInt64 →
        monthComp m = digitsVal (removeNonDigits m)) ∧
    (∀ d : List Char,
        numComp d = min (digitsVal (removeNonDigits d)) maxInt64) ∧
    (∀ (yy dd : Int), dateToDays yy 13 dd = dateToDays (yy + 1) 1 dd) ∧
    dateToDays 2025 3 0 = dateToDays 2025 2 28 := by
  refine ⟨fun p s d m y rest hs h1 h2 => Parse_three p s d m y rest hs h1 h2,
    monthComp_num, numComp_min, ?_, by decide⟩
  intro yy dd
  have h13 : (13 : Int) - 1 = 12 := by norm_num
  have h1 : (1 : Int) - 1 = 0 := by norm_num
  simp only [dateToDays, h13, h1, norm_twelve, norm_zero_twelve]

/-- C7 witness: out-of-range components at `99/99/99`, and the month-13
rollover at 2025. -/
theorem claim_C7_witness :
    p0.Parse "99/99/99".data
        = some (GoTime.localMidnight (dateToDays 2099 99 99), none) ∧
    dateToDays 2025 13 1 = dateToDays 2026 1 1 := by
  constructor
  · have h := claim_C7_amended.1 p0 "99/99/99".data "99".data "99".data
      "99".data [] (by decide) (by decide) (by decide)
    exact h
  · exact claim_C7_amended.2.2.2.1 2025 1

/-- The English month step exactly as claim C3 words it: a case-sensitive
exact match of the original month segment against "Jan" … "Dec". -/
def claimedEnglishMonth (s : List Char) : Option Nat :=
  if s = "Jan".data then some 1
  else if s = "Feb".data then some 2
  else if s = "Mar".data then some 3
  else if s = "Apr".data then some 4
  else if s = "May".data then some 5
  else if s = "Jun".data then some 6
  else if s = "Jul".data then some 7
  else if s = "Aug".data then some 8
  else if s = "Sep".data then some 9
  else if s = "Oct".data then some 10
  else if s = "Nov".data then some 11
  else if s = "Dec".data then some 12
  else none

/-- C3 counterexample: on `01/dec/2020` the month segment `dec` has no
digits, fails the claim's case-sensitive English match, and misses the
Spanish table, so the claim predicts month 0 — but the code resolves it
to December (Go's `time.Parse` matches month names case-insensitively),
and month 12 and month 0 give different dates. -/
theorem claim_C3_counterexample :
    p0.Parse "01/dec/2020".data
        = some (GoTime.localMidnight (dateToDays 2020 12 1), none) ∧
    removeNonDigits "dec".data = [] ∧
    claimedEnglishMonth "dec".data = none ∧
    spanishMonthLookup ((trimSpace "dec".data).map goToLower) = 0 ∧
    GoTime.localMidnight (dateToDays 2020 12 1)
      ≠ GoTime.localMidnight (dateToDays 2020 0 1) := by
  exact ⟨rfl, rfl, rfl, rfl, by decide⟩

/-- C3 amended: the month-resolution chain, in order: the digit run
stripped from the month segment parsed as an integer if non-empty and
within int64 (`strconv.Atoi` succeeding); otherwise — empty run or range
error — the original unstripped segment matched as a three-letter
English month abbreviation by ASCII-case-insensitive comparison (the
behaviour of `time.Parse`); otherwise a case-insensitive,
whitespace-trimmed Spanish-table lookup, yielding 0 with no error when
it misses. -/
theorem claim_C3_amended (p : DateParser) (s d m y : List Char)
    (rest : List (List Char)) (hs : splitOnSlash s = d :: m :: y :: rest)
    (h1 : s ≠ []) (h2 : s ≠ [ '/', '/' ]) :
    ∃ mo : Nat, p.Parse s = some (GoTime.localMidnight
        (dateToDays (yearComp y) mo (numComp d)), none) ∧
      (removeNonDigits m ≠ [] → digitsVal (removeNonDigits m) ≤ maxInt64 →
        mo = digitsVal (removeNonDigits m)) ∧
      ((removeNonDigits m = [] ∨ maxInt64 < digitsVal (removeNonDigits m)) →
        (timeParseJan m = some mo ∨
          (timeParseJan m = none ∧
            mo = spanishMonthLookup ((trimSpace m).map goToLower)))) := by
  refine ⟨monthComp m, Parse_three p s d m y rest hs h1 h2, ?_, ?_⟩
  · intro hne hfit
    exact monthComp_num m hne hfit
  · intro hm
    cases hj : timeParseJan m with
    | some v =>
      left
      rw [monthComp_eng m v hm hj]
    | none =>
      right
      exact ⟨rfl, monthComp_spa m hm hj⟩

/-- C3 witness: the amended chain applied at `15/JAN/2021` — the
uppercase English abbreviation resolves case-insensitively to January. -/
theorem claim_C3_witness :
    p0.Parse "15/JAN/2021".data
      = some (GoTime.localMidnight (dateToDays 2021 1 15), none) := by
  obtain ⟨mo, hp, _hnum, hname⟩ := claim_C3_amended p0 "15/JAN/2021".data
    "15".data "JAN".data "2021".data [] (by decide) (by decide) (by decide)
  have hJ : timeParseJan "JAN".data = some 1 := by decide
  rcases hname (Or.inl (by decide)) with hj | ⟨hj, _⟩
  · rw [hJ] at hj
    injection hj with hv
    rw [← hv] at hp
    exact hp
  · rw [hJ] at hj
    exact Option.noConfusion hj

theorem monthScan_bound (ns : List (List Char)) (i : Nat) (l : List Char)
    (v : Nat) (h : monthScan ns i l = some v) : i ≤ v ∧ v < i + ns.length := by
  induction ns generalizing i with
  | nil => exact Option.noConfusion h
  | cons n ns ih =>
    simp only [monthScan] at h
    by_cases hc : l = n
    · rw [if_pos hc] at h
      injection h with hv
      simp
      omega
    · rw [if_neg hc] at h
      have hb := ih (i + 1) h
      simp at hb ⊢
      omega

theorem timeParseJan_bound (s : List Char) (v : Nat)
    (h : timeParseJan s = some v) : 1 ≤ v ∧ v ≤ 12 := by
  have hb := monthScan_bound shortMonthNames 1 (s.map toLowerAscii) v h
  have hl : shortMonthNames.length = 12 := rfl
  omega

theorem lookup_val_mem {α β : Type} [BEq α] (l : List (α × β)) (k : α)
    (v : β) (h : l.lookup k = some v) : v ∈ l.map Prod.snd := by
  induction l with
  | nil => exact Option.noConfusion h
  | cons p ps ih =>
    rcases p with ⟨k2, v2⟩
    cases hk : k == k2 with
    | true =>
      simp [List.lookup, hk] at h
      exact h ▸ List.mem_cons_self v2 (ps.map Prod.snd)
    | false =>
      simp [List.lookup, hk] at h
      exact List.mem_cons_of_mem _ (ih h)

theorem spanishLookup_some_bound (k : List Char) (v : Nat)
    (h : spanishMonths.lookup k = some v) : 1 ≤ v ∧ v ≤ 12 := by
  have hmem := lookup_val_mem spanishMonths k v h
  have hall : ∀ x ∈ spanishMonths.map Prod.snd, 1 ≤ x ∧ x ≤ 12 := by decide
  exact hall v hmem

/-- C6 counterexample: `40/13/2020` parses with nil error, yet the month
supplied to the constructor is 13 and the day is 40 — outside [1,12] and
[1,31]. -/
theorem claim_C6_counterexample :
    p0.Parse "40/13/2020".data
        = some (GoTime.localMidnight (dateToDays 2020 13 40), none) ∧
    splitOnSlash "40/13/2020".data = ["40".data, "13".data, "2020".data] ∧
    monthComp "13".data = 13 ∧ numComp "40".data = 40 ∧
    ¬ (monthComp "13".data ≤ 12) ∧ ¬ (numComp "40".data ≤ 31) := by
  exact ⟨rfl, rfl, rfl, rfl, by decide, by decide⟩

/-- C6 amended: `Parse` never range-checks the components it hands to
the constructor: when the month segment's digit run is empty or
overflows int64 the month comes from the name lookups — the matched
value in [1,12] when the English or Spanish lookup hits, 0 when both
miss — while a numeric month within int64 is the digit-run value and the
day is always the digit-run value clamped to 9223372036854775807; any of
these may lie outside [1,12] and [1,31]. -/
theorem claim_C6_amended :
    (∀ (p : DateParser) (s d m y : List Char) (rest : List (List Char)),
        splitOnSlash s = d :: m :: y :: rest → s ≠ [] → s ≠ [ '/', '/' ] →
        p.Parse s = some (GoTime.localMidnight
          (dateToDays (yearComp y) (monthComp m) (numComp d)), none)) ∧
    (∀ m : List Char,
        removeNonDigits m = [] ∨ maxInt64 < digitsVal (removeNonDigits m) →
        (∀ v, timeParseJan m = some v →
            monthComp m = v ∧ 1 ≤ v ∧ v ≤ 12) ∧
        (timeParseJan m = none →
          (∀ v, spanishMonths.lookup ((trimSpace m).map goToLower) = some v →
              monthComp m = v ∧ 1 ≤ v ∧ v ≤ 12) ∧
          (spanishMonths.lookup ((trimSpace m).map goToLower) = none →
              monthComp m = 0))) ∧
    (∀ m : List Char, removeNonDigits m ≠ [] →
        digitsVal (removeNonDigits m) ≤ maxInt64 →
        monthComp m = digitsVal (removeNonDigits m)) ∧
    (∀ d : List Char,
        numComp d = min (digitsVal (removeNonDigits d)) maxInt64) := by
  refine ⟨fun p s d m y rest hs h1 h2 => Parse_three p s d m y rest hs h1 h2,
    ?_, monthComp_num, numComp_min⟩
  intro m hm
  refine ⟨?_, ?_⟩
  · intro v hj
    exact ⟨monthComp_eng m v hm hj, timeParseJan_bound m v hj⟩
  · intro hj
    refine ⟨?_, ?_⟩
    · intro v hl
      refine ⟨?_, spanishLookup_some_bound _ v hl⟩
      rw [monthComp_spa m hm hj]
      unfold spanishMonthLookup
      rw [hl]
      rfl
    · intro hl
      rw [monthComp_spa m hm hj]
      unfold spanishMonthLookup
      rw [hl]
      rfl

/-- C6 witness: the amended claim at a Spanish month (`ago`), at a
numeric month segment (`11`), and its component equation at `9/8/2024`. -/
theorem claim_C6_witness :
    (monthComp "ago".data = 8 ∧ 1 ≤ 8 ∧ 8 ≤ 12) ∧
    monthComp "11".data = digitsVal [ '1', '1' ] ∧
    p0.Parse "9/8/2024".data = some (GoTime.localMidnight
      (dateToDays (yearComp "2024".data) (monthComp "8".data)
        (numComp "9".data)), none) := by
  refine ⟨?_, ?_, ?_⟩
  · exact ((claim_C6_amended.2.1 "ago".data (Or.inl (by decide))).2
      (by decide)).1 8 (by decide)
  · exact claim_C6_amended.2.2.1 "11".data (by decide) (by decide)
  · exact claim_C6_amended.1 p0 "9/8/2024".data "9".data "8".data
      "2024".data [] (by decide) (by decide) (by decide)

end Nubarium
